import Mathlib

/-!
Shallow embedding of the CiCi-app cron scheduler backend
(`src/scheduler.js` and the jobs router) for checking its
natural-language specification.

Conventions of the embedding:
* machine strings are Lean `String`s; JavaScript regex tests over the
  fixed deny-list are compiled to executable matchers over `List Char`;
* timestamps are `Int` milliseconds; database ids are `Nat`;
* the `node-cron` expression validator is an abstract parameter
  `cronValid : String → Bool` (a pure syntax check per the spec);
* the in-memory `Map` of scheduled tasks is an association list with
  `Map.get` / `Map.set` / `Map.delete` semantics; `node-cron` task
  handles are numbered, and the set of started-and-not-stopped handles
  is tracked in `live` so that orphaned timers are observable;
* fallible store operations are driven by explicit outcome parameters
  (`Except`, `Bool` flags), and the engine records every UPDATE it
  issues in an `issued` trace.
-/

namespace CronoSphere

/-- The JavaScript whitespace class: characters matched by the regex
class `\s` and trimmed by `String.prototype.trim`. -/
def isJsWs (c : Char) : Bool :=
  c = ' ' || c = '\t' || c = '\n' || c = '\r' || c = '\x0b' || c = '\x0c' ||
  c = '\u00a0' || c = '\u1680' ||
  (0x2000 ≤ c.val.toNat && c.val.toNat ≤ 0x200a) ||
  c = '\u2028' || c = '\u2029' || c = '\u202f' || c = '\u205f' ||
  c = '\u3000' || c = '\ufeff'

/-- JavaScript `String.prototype.trim`: strip leading and trailing
whitespace. -/
def jsTrim (s : String) : String :=
  String.mk (((s.data.dropWhile isJsWs).reverse.dropWhile isJsWs).reverse)

/-- One token of a compiled deny-list regex: a case-sensitive literal,
a case-insensitive literal (`/i` flag), `\s*`, or `\s+`. -/
inductive RTok
  | lit (c : Char)
  | litCI (c : Char)
  | wsStar
  | wsPlus
deriving DecidableEq

/-- Suffixes reachable from `xs` by consuming zero or more whitespace
characters (the positions a `\s*` can leave the engine at). -/
def wsClosure : List Char → List (List Char)
  | [] => [[]]
  | x :: xs => (x :: xs) :: (if isJsWs x then wsClosure xs else [])

/-- Consume one token from every alternative position, keeping the
positions that survive. -/
def stepTok (xss : List (List Char)) : RTok → List (List Char)
  | RTok.lit c =>
      xss.filterMap fun xs =>
        match xs with
        | x :: xs' => if x = c then some xs' else none
        | [] => none
  | RTok.litCI c =>
      xss.filterMap fun xs =>
        match xs with
        | x :: xs' => if x.toLower = c.toLower then some xs' else none
        | [] => none
  | RTok.wsStar => (xss.map wsClosure).flatten
  | RTok.wsPlus =>
      ((xss.filterMap fun xs =>
        match xs with
        | x :: xs' => if isJsWs x then some xs' else none
        | [] => none).map wsClosure).flatten

/-- Match a token sequence against a prefix of `xs`: position-set
semantics of the backtracking regex engine at one start position. -/
def matchToks (ts : List RTok) (xs : List Char) : Bool :=
  !(ts.foldl stepTok [xs]).isEmpty

/-- `RegExp.prototype.test`: the token pattern matches at some start
position of the string. -/
def regTest (ts : List RTok) (s : String) : Bool :=
  s.data.tails.any fun suf => matchToks ts suf

/-- Case-insensitive literal tokens for a pattern fragment. -/
def litsCI (s : String) : List RTok :=
  s.data.map RTok.litCI

/-- Case-sensitive literal tokens for a pattern fragment. -/
def lits (s : String) : List RTok :=
  s.data.map RTok.lit

/-- Tokens of the deny-list regex `rm\s+-rf` (flag `i`). -/
def rmRfToks : List RTok :=
  litsCI "rm" ++ [RTok.wsPlus] ++ litsCI "-rf"

/-- Tokens of the deny-list regex `dd\s+if=` (flag `i`). -/
def ddIfToks : List RTok :=
  litsCI "dd" ++ [RTok.wsPlus] ++ litsCI "if="

/-- Tokens of the deny-list regex `mkfs\.` (flag `i`). -/
def mkfsToks : List RTok :=
  litsCI "mkfs."

/-- Tokens of the first fork-bomb deny-list regex
`:\s*\(\)\s*\x7b\s*:\s*\|\s*:\s*;\s*\x7d` (no flags). -/
def forkBomb1Toks : List RTok :=
  [RTok.lit ':', RTok.wsStar, RTok.lit '(', RTok.lit ')', RTok.wsStar,
   RTok.lit '\x7b', RTok.wsStar, RTok.lit ':', RTok.wsStar, RTok.lit '|',
   RTok.wsStar, RTok.lit ':', RTok.wsStar, RTok.lit ';', RTok.wsStar,
   RTok.lit '\x7d']

/-- Case-insensitively consume the literal characters `cs` from the
front of `xs`, returning the remainder on success. -/
def eatCI : List Char → List Char → Option (List Char)
  | [], xs => some xs
  | c :: cs, x :: xs => if x.toLower = c.toLower then eatCI cs xs else none
  | _ :: _, [] => none

/-- Match `sudo(\s|$)` (case-insensitively) at the head of `xs`. -/
def sudoCore (xs : List Char) : Bool :=
  match eatCI "sudo".data xs with
  | some [] => true
  | some (r :: _) => isJsWs r
  | none => false

/-- Scan for `(^|\s)sudo(\s|$)`: `prevOk` records whether the current
position is the string start or preceded by whitespace. -/
def sudoScan : Bool → List Char → Bool
  | _, [] => false
  | prevOk, x :: rest =>
      (prevOk && sudoCore (x :: rest)) || sudoScan (isJsWs x) rest

/-- The deny-list regex `(^|\s)sudo(\s|$)` (flag `i`). -/
def sudoTest (s : String) : Bool :=
  sudoScan true s.data

/-- Plain substring containment. -/
def containsSub (needle s : String) : Bool :=
  s.data.tails.any fun suf => needle.data.isPrefixOf suf

/-- The second fork-bomb deny-list regex `:(){:|:&};:`.  In JavaScript
the unescaped `()` is an empty group (matching the empty string), the
braces are literals, and the top-level `|` alternates, so this regex
actually matches any string containing `:\x7b:` or containing
`:&\x7d;:`. -/
def forkBomb2Test (s : String) : Bool :=
  containsSub ":\x7b:" s || containsSub ":&\x7d;:" s

/-- The fixed deny-list, in source order. -/
def FORBIDDEN_PATTERNS : List (String → Bool) :=
  [sudoTest,
   fun s => regTest rmRfToks s,
   fun s => regTest forkBomb1Toks s,
   fun s => regTest ddIfToks s,
   fun s => regTest mkfsToks s,
   forkBomb2Test]

/-- `isForbidden(command)`: falsy commands pass, otherwise the command
is rejected when any deny-list pattern tests true. -/
def isForbidden (command : String) : Bool :=
  if command = "" then false
  else FORBIDDEN_PATTERNS.any fun re => re command

/-- Job status as persisted in the `jobs` table. -/
inductive JobStatus
  | active
  | paused
deriving DecidableEq, Repr

/-- A row of the `jobs` table. -/
structure Job where
  id : Nat
  name : String
  command : String
  schedule : String
  status : JobStatus
deriving DecidableEq, Repr

/-- `Map.prototype.get`-style key membership on the task registry. -/
def hasKey (k : Nat) (l : List (Nat × Nat)) : Bool :=
  l.any fun p => p.1 = k

/-- `scheduledJobs.get(k)`: the task handle stored under `k`. -/
def lookupTask (k : Nat) (l : List (Nat × Nat)) : Option Nat :=
  (l.find? fun p => p.1 = k).map Prod.snd

/-- `scheduledJobs.set(k, v)`: replace the value in place when the key
is present, append otherwise. -/
def mapSet (k v : Nat) (l : List (Nat × Nat)) : List (Nat × Nat) :=
  if hasKey k l then l.map fun p => if p.1 = k then (k, v) else p
  else l ++ [(k, v)]

/-- `scheduledJobs.delete(k)`. -/
def mapDelete (k : Nat) (l : List (Nat × Nat)) : List (Nat × Nat) :=
  l.filter fun p => p.1 ≠ k

/-- Scheduler-side transient state: the task registry, the set of
`node-cron` task handles that have been started and not stopped, and a
counter supplying fresh handles. -/
structure SchedulerState where
  registry : List (Nat × Nat)
  live : List Nat
  nextHandle : Nat
deriving DecidableEq, Repr

/-- What a call to `scheduleJob` did (ran immediately, registered a
recurring trigger, or warned about an invalid cron expression). -/
inductive SchedEvent
  | ranNow
  | registered
  | warnedInvalid
deriving DecidableEq, Repr

/-- `scheduleJob(job, runNow)`, registry side.  With `runNow` the
registry is untouched; otherwise a validated schedule starts a fresh
cron task and stores its handle under `job.id` — without stopping any
task previously stored there — and an invalid schedule only warns. -/
def scheduleJob (cronValid : String → Bool) (job : Job) (runNow : Bool)
    (s : SchedulerState) : SchedulerState × SchedEvent :=
  if runNow then (s, SchedEvent.ranNow)
  else if cronValid job.schedule then
    ({ registry := mapSet job.id s.nextHandle s.registry,
       live := s.nextHandle :: s.live,
       nextHandle := s.nextHandle + 1 }, SchedEvent.registered)
  else (s, SchedEvent.warnedInvalid)

/-- `cancelJob(id)`: stop and remove the registered task when present;
otherwise only a warning is logged and nothing changes.  The returned
flag records whether a task was found. -/
def cancelJob (id : Nat) (s : SchedulerState) : SchedulerState × Bool :=
  match lookupTask id s.registry with
  | some h =>
      ({ registry := mapDelete id s.registry,
         live := s.live.erase h,
         nextHandle := s.nextHandle }, true)
  | none => (s, false)

/-- One iteration of the `initScheduler` loop: skip a paused job, call
`scheduleJob` on any other. -/
def initStep (cronValid : String → Bool) (st : SchedulerState) (j : Job) :
    SchedulerState :=
  if j.status = JobStatus.paused then st
  else (scheduleJob cronValid j false st).1

/-- `initScheduler()`: fold over all persisted jobs from an empty
registry, skipping paused ones and calling `scheduleJob` on the rest. -/
def initScheduler (cronValid : String → Bool) (table : List Job) :
    SchedulerState :=
  table.foldl (initStep cronValid) ⟨[], [], 0⟩

/-- Outcome reported by a router handler. -/
inductive ApiOutcome
  | ok
  | badRequest (msg : String)
  | notFound
deriving DecidableEq, Repr

/-- Whole-system state seen by the router: the `jobs` table, the
scheduler's transient state, and the store's next fresh job id. -/
structure Sys where
  jobs : List Job
  sched : SchedulerState
  nextJobId : Nat
deriving DecidableEq, Repr

/-- `POST /` — create a job: require the three fields, bound the
command length, run the safety gate, validate the cron expression,
then insert the job as `active` and schedule it. -/
def createJob (cronValid : String → Bool) (s : Sys)
    (name command schedule : String) : Sys × ApiOutcome :=
  if name = "" || command = "" || schedule = "" then
    (s, ApiOutcome.badRequest "name, command, schedule required")
  else if 2000 < command.length then
    (s, ApiOutcome.badRequest "command too long")
  else if isForbidden command then
    (s, ApiOutcome.badRequest "command contains forbidden operations")
  else if cronValid schedule then
    ({ jobs := s.jobs ++
         [⟨s.nextJobId, name, command, schedule, JobStatus.active⟩],
       sched := (scheduleJob cronValid
         ⟨s.nextJobId, name, command, schedule, JobStatus.active⟩
         false s.sched).1,
       nextJobId := s.nextJobId + 1 }, ApiOutcome.ok)
  else (s, ApiOutcome.badRequest "invalid cron expression")

/-- `POST /:id/pause`: mark the job paused in the store, then cancel
its registered task. -/
def pauseJob (s : Sys) (id : Nat) : Sys × ApiOutcome :=
  match s.jobs.find? fun j => j.id = id with
  | none => (s, ApiOutcome.notFound)
  | some _ =>
      ({ jobs := s.jobs.map fun j =>
           if j.id = id then { j with status := JobStatus.paused } else j,
         sched := (cancelJob id s.sched).1,
         nextJobId := s.nextJobId }, ApiOutcome.ok)

/-- `POST /:id/resume`: only a paused job may resume; mark it active in
the store, then schedule the row fetched before the update. -/
def resumeJob (cronValid : String → Bool) (s : Sys) (id : Nat) :
    Sys × ApiOutcome :=
  match s.jobs.find? fun j => j.id = id with
  | none => (s, ApiOutcome.notFound)
  | some j =>
      if j.status = JobStatus.paused then
        ({ jobs := s.jobs.map fun j' =>
             if j'.id = id then { j' with status := JobStatus.active } else j',
           sched := (scheduleJob cronValid j false s.sched).1,
           nextJobId := s.nextJobId }, ApiOutcome.ok)
      else (s, ApiOutcome.badRequest "job is not paused")

/-- `DELETE /:id`: delete the row unconditionally, then cancel any
registered task. -/
def deleteJob (s : Sys) (id : Nat) : Sys × ApiOutcome :=
  ({ jobs := s.jobs.filter fun j => j.id ≠ id,
     sched := (cancelJob id s.sched).1,
     nextJobId := s.nextJobId }, ApiOutcome.ok)

/-- States reachable through the public operations, starting from a
fresh process whose registry was rebuilt by `initScheduler` from a
well-formed persisted `jobs` table. -/
inductive Reachable (cronValid : String → Bool) : Sys → Prop
  | init (table : List Job) (nid : Nat)
      (hids : (table.map Job.id).Nodup)
      (hbound : ∀ j ∈ table, j.id < nid) :
      Reachable cronValid ⟨table, initScheduler cronValid table, nid⟩
  | create {s : Sys} (h : Reachable cronValid s)
      (name command schedule : String) :
      Reachable cronValid (createJob cronValid s name command schedule).1
  | pause {s : Sys} (h : Reachable cronValid s) (id : Nat) :
      Reachable cronValid (pauseJob s id).1
  | resume {s : Sys} (h : Reachable cronValid s) (id : Nat) :
      Reachable cronValid (resumeJob cronValid s id).1
  | del {s : Sys} (h : Reachable cronValid s) (id : Nat) :
      Reachable cronValid (deleteJob s id).1
  | runNow {s : Sys} (h : Reachable cronValid s) (job : Job) :
      Reachable cronValid
        { s with sched := (scheduleJob cronValid job true s.sched).1 }

/-- Status of a `job_runs` row. -/
inductive RunStatus
  | queued
  | running
  | success
  | error
deriving DecidableEq, Repr

/-- A row of the `job_runs` table. -/
structure JobRun where
  id : Nat
  jobId : Nat
  status : RunStatus
  startedAt : Option Int
  finishedAt : Option Int
  output : Option String
deriving DecidableEq, Repr

/-- One issued finalization `UPDATE job_runs SET status, output,
finished_at WHERE id = runId`. -/
structure FinalizeOp where
  runId : Nat
  status : RunStatus
  output : String
  finishedAt : Int
deriving DecidableEq, Repr

/-- Environment of one `runJob` invocation: what the store and the
spawned process do.  `procErr` is `none` when the process exits
cleanly and carries the error message otherwise (non-zero exit,
timeout, or spawn failure are all reported through the same `err`
argument of the `exec` callback). -/
structure ExecEnv where
  insertRes : Except String Nat
  procErr : Option String
  stdout : String
  stderr : String
  updateOk : Bool
  update2Ok : Bool
  now0 : Int
  now1 : Int
  now2 : Int
deriving Repr

/-- `output.trim() || '(no output)'`. -/
def trimOrPlaceholder (s : String) : String :=
  if jsTrim s = "" then "(no output)" else jsTrim s

/-- Apply a finalization update to the `job_runs` table. -/
def applyFinalize (table : List JobRun) (op : FinalizeOp) : List JobRun :=
  table.map fun r =>
    if r.id = op.runId then
      { r with status := op.status, output := some op.output,
               finishedAt := some op.finishedAt }
    else r

/-- Result of one `runJob` invocation: the final `job_runs` table, the
finalization updates the engine issued (in order), whether the process
was spawned, and the row the initial insert created (if any). -/
structure RunResult where
  table : List JobRun
  issued : List FinalizeOp
  spawned : Bool
  inserted : Option JobRun
deriving DecidableEq, Repr

/-- The `runJob` closure inside `scheduleJob`.  When the initial insert
fails the outer catch fires with no run id: only a log line, no spawn,
no update.  Otherwise the process runs; its callback issues one
finalization update (applied when the store accepts it) and then, on a
process error, rejects the promise, which lands in the outer catch
where — the run id being set — a second finalization update carrying
the raw error message is issued for the same run. -/
def runJob (job : Job) (env : ExecEnv) (table : List JobRun) : RunResult :=
  match env.insertRes with
  | Except.error _ =>
      { table := table, issued := [], spawned := false, inserted := none }
  | Except.ok runId =>
      let row : JobRun := ⟨runId, job.id, RunStatus.running,
        some env.now0, none, none⟩
      let table1 := table ++ [row]
      let status := if env.procErr.isSome then RunStatus.error
        else RunStatus.success
      let op1 : FinalizeOp :=
        ⟨runId, status, trimOrPlaceholder (env.stdout ++ env.stderr), env.now1⟩
      let table2 := if env.updateOk then applyFinalize table1 op1 else table1
      match env.procErr with
      | none =>
          { table := table2, issued := [op1], spawned := true,
            inserted := some row }
      | some msg =>
          let op2 : FinalizeOp := ⟨runId, RunStatus.error, msg, env.now2⟩
          let table3 :=
            if env.update2Ok then applyFinalize table2 op2 else table2
          { table := table3, issued := [op1, op2], spawned := true,
            inserted := some row }

/-- Thirty days in milliseconds, the retention window. -/
def thirtyDaysMs : Int := 30 * 24 * 60 * 60 * 1000

/-- The SQL predicate `finished_at < NOW() - INTERVAL '30 days'`: a
`NULL` `finished_at` compares to nothing and is never old. -/
def runIsOld (now : Int) (r : JobRun) : Bool :=
  match r.finishedAt with
  | some t => t < now - thirtyDaysMs
  | none => false

/-- `cleanupOldRuns()`: one sweep of the retention cleanup.  The single
`DELETE` either succeeds, removing exactly the rows satisfying the age
predicate, or fails, in which case the error is caught and logged and
the table is untouched — the function itself never throws. -/
def cleanupOldRuns (storeOk : Bool) (now : Int) (table : List JobRun) :
    List JobRun :=
  if storeOk then table.filter fun r => !runIsOld now r
  else table

/-- The keys of the task registry. -/
def keysOf (l : List (Nat × Nat)) : List Nat :=
  l.map Prod.fst

/-- The registry invariant maintained by the public operations,
strengthened with the bookkeeping facts the induction needs. -/
def RegInv (cronValid : String → Bool) (s : Sys) : Prop :=
  (keysOf s.sched.registry).Nodup ∧
  (∀ k ∈ keysOf s.sched.registry, ∃ j ∈ s.jobs, j.id = k) ∧
  (s.jobs.map Job.id).Nodup ∧
  (∀ j ∈ s.jobs, j.id < s.nextJobId) ∧
  (∀ j ∈ s.jobs,
    (j.id ∈ keysOf s.sched.registry ↔
      (j.status = JobStatus.active ∧ cronValid j.schedule = true)))

/-- A sample cron validator accepting only the every-minute schedule. -/
def cvStd : String → Bool := fun sch => sch = "* * * * *"

/-- A cron validator accepting everything. -/
def cvAll : String → Bool := fun _ => true

/-- Sample job for the clean-exit execution scenario. -/
def jobEx : Job := ⟨1, "demo", "echo hello", "* * * * *", JobStatus.active⟩

/-- Environment: insert yields run id 7, the process exits cleanly with
output on stdout, and the finalization update succeeds. -/
def envOkEx : ExecEnv :=
  ⟨Except.ok 7, none, "hello\n", "", true, true, 100, 200, 300⟩

/-- Environment: insert yields run id 7 and the process fails; both
finalization updates succeed. -/
def envFailEx : ExecEnv :=
  ⟨Except.ok 7, some "Command failed: exit 1", "", "boom\n", true, true,
   100, 200, 300⟩

/-- Environment: the initial insert fails. -/
def envInsFail : ExecEnv :=
  ⟨Except.error "db down", none, "", "", true, true, 0, 0, 0⟩

/-- A run finalized just past the retention window. -/
def runOld : JobRun := ⟨1, 1, RunStatus.success, some 0, some 0, some "old"⟩

/-- A run finalized within the retention window. -/
def runYoung : JobRun :=
  ⟨2, 1, RunStatus.success, some 0, some 2591999999, some "new"⟩

/-- A run stuck at `running` with no `finished_at`. -/
def runStuck : JobRun := ⟨3, 1, RunStatus.running, some 0, none, none⟩

/-- A job whose schedule `cvStd` rejects. -/
def jobBadCron : Job := ⟨2, "bad", "echo hi", "not a cron", JobStatus.active⟩

/-- A job used to overwrite an existing registry entry. -/
def jobRepl : Job := ⟨1, "re", "echo hi", "* * * * *", JobStatus.active⟩

/-- A 2001-character command, above the router's length bound. -/
def longCmd : String := String.mk (List.replicate 2001 'a')

/-- An empty system state. -/
def sysEx : Sys := ⟨[], ⟨[], [], 0⟩, 0⟩

/-- A persisted active job used for the reachable-state witness. -/
def jobW : Job := ⟨1, "w", "echo hello", "* * * * *", JobStatus.active⟩

/-- Key membership is membership in the key list. -/
theorem hasKey_eq_mem (a : Nat) (l : List (Nat × Nat)) :
    hasKey a l = true ↔ a ∈ keysOf l := by
  simp [hasKey, keysOf, List.any_eq_true, List.mem_map]

/-- Looking up an absent key yields nothing. -/
theorem lookupTask_eq_none_iff (k : Nat) (l : List (Nat × Nat)) :
    lookupTask k l = none ↔ k ∉ keysOf l := by
  unfold lookupTask keysOf
  rw [Option.map_eq_none', List.find?_eq_none]
  constructor
  · intro h hk
    obtain ⟨p, hp, hpk⟩ := List.mem_map.mp hk
    have hne := h p hp
    simp only [decide_eq_true_eq] at hne
    exact hne hpk
  · intro h p hp
    simp only [decide_eq_true_eq]
    intro hpk
    exact h (List.mem_map.mpr ⟨p, hp, hpk⟩)

/-- Deleting a key then looking it up yields nothing. -/
theorem lookupTask_mapDelete_self (k : Nat) (l : List (Nat × Nat)) :
    lookupTask k (mapDelete k l) = none := by
  rw [lookupTask_eq_none_iff]
  intro h
  simp [keysOf, mapDelete, List.mem_map, List.mem_filter] at h

/-- C6: when the initial JobRun insert fails the engine abandons the
invocation with only a log line: the runs table is unchanged, no
process is spawned, and no finalization update is issued. -/
theorem runJob_insertFail_aborts (job : Job) (env : ExecEnv)
    (table : List JobRun) (e : String)
    (h : env.insertRes = Except.error e) :
    runJob job env table = ⟨table, [], false, none⟩ := by
  unfold runJob
  rw [h]

/-- Witness for `runJob_insertFail_aborts` at a concrete environment. -/
theorem runJob_insertFail_aborts_witness :
    runJob jobEx envInsFail [] = ⟨[], [], false, none⟩ :=
  runJob_insertFail_aborts jobEx envInsFail [] "db down" rfl

/-- C2: whenever the initial insert succeeds, the engine first inserts
a running JobRun carrying `started_at` and the obtained id, spawns the
process, and the first finalization update it issues on process
completion carries `success` exactly when the process exited cleanly,
the trimmed combined output (or the placeholder), and a
`finished_at`. -/
theorem runJob_records_lifecycle (job : Job) (env : ExecEnv)
    (table : List JobRun) (runId : Nat)
    (h : env.insertRes = Except.ok runId) :
    (runJob job env table).inserted =
        some ⟨runId, job.id, RunStatus.running, some env.now0, none, none⟩ ∧
      (runJob job env table).spawned = true ∧
      (runJob job env table).issued.head? =
        some ⟨runId,
              if env.procErr.isSome then RunStatus.error else RunStatus.success,
              trimOrPlaceholder (env.stdout ++ env.stderr), env.now1⟩ := by
  unfold runJob
  rw [h]
  cases hp : env.procErr <;> simp [hp]

/-- Witness for `runJob_records_lifecycle` at a concrete clean run. -/
theorem runJob_records_lifecycle_witness :
    (runJob jobEx envOkEx []).inserted =
        some ⟨7, 1, RunStatus.running, some 100, none, none⟩ ∧
      (runJob jobEx envOkEx []).spawned = true ∧
      (runJob jobEx envOkEx []).issued.head? =
        some ⟨7, RunStatus.success, "hello", 200⟩ :=
  runJob_records_lifecycle jobEx envOkEx [] 7 rfl

/-- C1 is violated by the code: when the spawned process fails, the
exec callback issues a finalization update and then rejects the
promise, so the outer catch — the run id being set — issues a second
finalization update for the same run id, mutating the already terminal
row and writing `finished_at` a second time. -/
theorem runJob_double_finalization :
    (runJob jobEx envFailEx []).issued =
        [⟨7, RunStatus.error, "boom", 200⟩,
         ⟨7, RunStatus.error, "Command failed: exit 1", 300⟩] ∧
      (runJob jobEx envFailEx []).table =
        [⟨7, 1, RunStatus.error, some 100, some 300,
          some "Command failed: exit 1"⟩] := by
  constructor <;> rfl

/-- C7: a successful sweep leaves no run older than the 30-day window,
keeps every run not older than the window, and a failed sweep is
caught, leaving the table untouched. -/
theorem cleanupOldRuns_spec (now : Int) (table : List JobRun) :
    (∀ r ∈ cleanupOldRuns true now table, runIsOld now r = false) ∧
      (∀ r ∈ table, runIsOld now r = false →
        r ∈ cleanupOldRuns true now table) ∧
      cleanupOldRuns false now table = table := by
  refine ⟨?_, ?_, rfl⟩
  · intro r hr
    rw [cleanupOldRuns, if_pos rfl, List.mem_filter] at hr
    simpa using hr.2
  · intro r hr h
    rw [cleanupOldRuns, if_pos rfl, List.mem_filter]
    exact ⟨hr, by simpa using h⟩

/-- Witness for `cleanupOldRuns_spec` on a concrete table. -/
theorem cleanupOldRuns_spec_witness :
    runIsOld 2592000001 runYoung = false ∧
      runYoung ∈ cleanupOldRuns true 2592000001 [runOld, runYoung] ∧
      cleanupOldRuns false 2592000001 [runOld, runYoung] =
        [runOld, runYoung] := by
  have h := cleanupOldRuns_spec 2592000001 [runOld, runYoung]
  exact ⟨h.1 runYoung (by decide), h.2.1 runYoung (by decide) (by decide),
    h.2.2⟩

/-- C10: a run with no `finished_at` is never deleted by the sweeper,
however old its start may be. -/
theorem cleanupOldRuns_keeps_unfinished (now : Int) (table : List JobRun)
    (r : JobRun) (hr : r ∈ table) (hfin : r.finishedAt = none) :
    r ∈ cleanupOldRuns true now table := by
  rw [cleanupOldRuns, if_pos rfl, List.mem_filter]
  refine ⟨hr, ?_⟩
  simp [runIsOld, hfin]

/-- Witness for `cleanupOldRuns_keeps_unfinished`: an arbitrarily old
stuck run survives the sweep. -/
theorem cleanupOldRuns_keeps_unfinished_witness :
    runStuck ∈ cleanupOldRuns true 99999999999999 [runStuck] :=
  cleanupOldRuns_keeps_unfinished 99999999999999 [runStuck] runStuck
    (by decide) rfl

/-- C8: with an invalid cron expression, `scheduleJob` without `runNow`
returns the state unchanged (registering nothing, stopping nothing)
and reports only the warning. -/
theorem scheduleJob_invalid_noop (cronValid : String → Bool) (job : Job)
    (s : SchedulerState) (h : cronValid job.schedule = false) :
    scheduleJob cronValid job false s = (s, SchedEvent.warnedInvalid) := by
  simp [scheduleJob, h]

/-- Witness for `scheduleJob_invalid_noop` at a concrete invalid
schedule. -/
theorem scheduleJob_invalid_noop_witness :
    scheduleJob cvStd jobBadCron false ⟨[], [], 0⟩ =
      (⟨[], [], 0⟩, SchedEvent.warnedInvalid) :=
  scheduleJob_invalid_noop cvStd jobBadCron ⟨[], [], 0⟩ (by decide)

/-- C9: cancelling a job that is not in the registry changes nothing
(only a warning is logged), and a second cancel right after a first is
always a no-op on the state. -/
theorem cancelJob_absent_noop_and_idem (id : Nat) (s : SchedulerState) :
    (lookupTask id s.registry = none → cancelJob id s = (s, false)) ∧
      (cancelJob id (cancelJob id s).1).1 = (cancelJob id s).1 := by
  constructor
  · intro h
    simp [cancelJob, h]
  · cases hl : lookupTask id s.registry with
    | none => simp [cancelJob, hl]
    | some t =>
        have h2 := lookupTask_mapDelete_self id s.registry
        simp [cancelJob, hl, h2]

/-- Witness for `cancelJob_absent_noop_and_idem` on the empty
registry. -/
theorem cancelJob_absent_noop_and_idem_witness :
    cancelJob 5 ⟨[], [], 0⟩ = (⟨[], [], 0⟩, false) ∧
      (cancelJob 5 (cancelJob 5 ⟨[], [], 0⟩).1).1 =
        (cancelJob 5 ⟨[], [], 0⟩).1 := by
  have h := cancelJob_absent_noop_and_idem 5 ⟨[], [], 0⟩
  exact ⟨h.1 rfl, h.2⟩

/-- C5 is violated by the code: registering under a job id already in
the registry overwrites the Map entry without stopping the previous
task.  Concretely, with handle 0 registered for job 1 and live,
scheduling job 1 again leaves handle 0 live yet absent from the
registry — an orphaned, still-firing timer. -/
theorem scheduleJob_orphans_previous_trigger :
    (scheduleJob cvAll jobRepl false ⟨[(1, 0)], [0], 1⟩).1.live.contains 0 =
        true ∧
      (keysOf (scheduleJob cvAll jobRepl false ⟨[(1, 0)], [0], 1⟩).1.registry
        = [1] ∧
       lookupTask 1
          (scheduleJob cvAll jobRepl false ⟨[(1, 0)], [0], 1⟩).1.registry =
        some 1) := by
  decide

/-- C3: `isForbidden` returns true exactly on commands matched by at
least one deny-list pattern, and the create route rejects any command
longer than 2000 characters before touching any state. -/
theorem isForbidden_matches_denylist :
    (∀ c : String,
        isForbidden c =
          (sudoTest c || (regTest rmRfToks c || (regTest forkBomb1Toks c ||
            (regTest ddIfToks c || (regTest mkfsToks c ||
              forkBomb2Test c)))))) ∧
      (∀ (cronValid : String → Bool) (s : Sys)
          (name command schedule : String),
        2000 < command.length →
        (createJob cronValid s name command schedule).1 = s ∧
          (createJob cronValid s name command schedule).2 ≠
            ApiOutcome.ok) := by
  constructor
  · intro c
    by_cases h : c = ""
    · subst h; decide
    · simp [isForbidden, h, FORBIDDEN_PATTERNS]
  · intro cronValid s name command schedule hlen
    unfold createJob
    simp only [hlen, if_true]
    split
    · exact ⟨rfl, by simp⟩
    · exact ⟨rfl, by simp⟩

/-- Witness for `isForbidden_matches_denylist`: a command matching the
sudo pattern, and an oversized command hitting the length bound. -/
theorem isForbidden_matches_denylist_witness :
    isForbidden "sudo reboot" =
        (sudoTest "sudo reboot" || (regTest rmRfToks "sudo reboot" ||
          (regTest forkBomb1Toks "sudo reboot" ||
            (regTest ddIfToks "sudo reboot" ||
              (regTest mkfsToks "sudo reboot" ||
                forkBomb2Test "sudo reboot"))))) ∧
      (createJob cvStd sysEx "n" longCmd "* * * * *").1 = sysEx ∧
      (createJob cvStd sysEx "n" longCmd "* * * * *").2 ≠ ApiOutcome.ok := by
  have h := isForbidden_matches_denylist
  have hlen : 2000 < longCmd.length := by
    have he : longCmd.length = 2001 := by
      show (List.replicate 2001 'a').length = 2001
      rw [List.length_replicate]
    omega
  have h2 := h.2 cvStd sysEx "n" longCmd "* * * * *" hlen
  exact ⟨h.1 "sudo reboot", h2.1, h2.2⟩

/-- Writing an existing key keeps the key list unchanged. -/
theorem keys_mapSet_of_has (k v : Nat) (l : List (Nat × Nat))
    (h : hasKey k l = true) :
    keysOf (mapSet k v l) = keysOf l := by
  unfold mapSet
  rw [if_pos h]
  unfold keysOf
  rw [List.map_map]
  apply List.map_congr_left
  intro p _
  by_cases hpk : p.1 = k <;> simp [hpk]

/-- Writing a fresh key appends it to the key list. -/
theorem keys_mapSet_of_not (k v : Nat) (l : List (Nat × Nat))
    (h : ¬ hasKey k l = true) :
    keysOf (mapSet k v l) = keysOf l ++ [k] := by
  unfold mapSet
  rw [if_neg h]
  simp [keysOf]

/-- Membership in the key list after a write. -/
theorem mem_keys_mapSet (a k v : Nat) (l : List (Nat × Nat)) :
    a ∈ keysOf (mapSet k v l) ↔ (a ∈ keysOf l ∨ a = k) := by
  by_cases h : hasKey k l = true
  · rw [keys_mapSet_of_has k v l h]
    have hk : k ∈ keysOf l := (hasKey_eq_mem k l).mp h
    constructor
    · exact Or.inl
    · rintro (ha | rfl)
      · exact ha
      · exact hk
  · rw [keys_mapSet_of_not k v l h]
    simp [List.mem_append]

/-- Membership in the key list after a delete. -/
theorem mem_keys_mapDelete (a k : Nat) (l : List (Nat × Nat)) :
    a ∈ keysOf (mapDelete k l) ↔ (a ∈ keysOf l ∧ a ≠ k) := by
  unfold mapDelete keysOf
  constructor
  · intro h
    obtain ⟨p, hp, rfl⟩ := List.mem_map.mp h
    obtain ⟨hpl, hpk⟩ := List.mem_filter.mp hp
    simp only [decide_eq_true_eq] at hpk
    exact ⟨List.mem_map.mpr ⟨p, hpl, rfl⟩, hpk⟩
  · rintro ⟨h, hak⟩
    obtain ⟨p, hp, rfl⟩ := List.mem_map.mp h
    refine List.mem_map.mpr ⟨p, List.mem_filter.mpr ⟨hp, ?_⟩, rfl⟩
    simpa using hak

/-- A write preserves distinctness of the keys. -/
theorem nodup_keys_mapSet (k v : Nat) (l : List (Nat × Nat))
    (h : (keysOf l).Nodup) : (keysOf (mapSet k v l)).Nodup := by
  by_cases hk : hasKey k l = true
  · rwa [keys_mapSet_of_has k v l hk]
  · rw [keys_mapSet_of_not k v l hk]
    have hnm : k ∉ keysOf l := fun hm => hk ((hasKey_eq_mem k l).mpr hm)
    simp [List.nodup_append, h, hnm]

/-- A delete preserves distinctness of the keys. -/
theorem nodup_keys_mapDelete (k : Nat) (l : List (Nat × Nat))
    (h : (keysOf l).Nodup) : (keysOf (mapDelete k l)).Nodup := by
  unfold mapDelete keysOf
  exact h.sublist ((List.filter_sublist l).map Prod.fst)

/-- Membership in the key list after `cancelJob`. -/
theorem mem_keys_cancelJob (a id : Nat) (st : SchedulerState) :
    a ∈ keysOf (cancelJob id st).1.registry ↔
      (a ∈ keysOf st.registry ∧ a ≠ id) := by
  unfold cancelJob
  cases hl : lookupTask id st.registry with
  | none =>
      have hid : id ∉ keysOf st.registry :=
        (lookupTask_eq_none_iff id st.registry).mp hl
      constructor
      · intro ha
        exact ⟨ha, fun he => hid (he ▸ ha)⟩
      · exact fun hh => hh.1
  | some t =>
      exact mem_keys_mapDelete a id st.registry

/-- `cancelJob` preserves distinctness of the keys. -/
theorem nodup_keys_cancelJob (id : Nat) (st : SchedulerState)
    (h : (keysOf st.registry).Nodup) :
    (keysOf (cancelJob id st).1.registry).Nodup := by
  unfold cancelJob
  cases hl : lookupTask id st.registry with
  | none => exact h
  | some t => exact nodup_keys_mapDelete id st.registry h

/-- Flipping one job's status preserves the id list. -/
theorem ids_setStatus (jobs : List Job) (id : Nat) (st : JobStatus) :
    ((jobs.map fun j => if j.id = id then { j with status := st } else j).map
        Job.id) = jobs.map Job.id := by
  rw [List.map_map]
  apply List.map_congr_left
  intro j _
  by_cases h : j.id = id <;> simp [h]

/-- A job that is not paused is active. -/
theorem status_eq_active_of_ne_paused (j : Job)
    (h : ¬ j.status = JobStatus.paused) :
    j.status = JobStatus.active := by
  cases hs : j.status
  · rfl
  · exact absurd hs h

/-- State produced by registering a job with a valid schedule. -/
theorem scheduleJob_valid_state (cronValid : String → Bool) (job : Job)
    (st : SchedulerState) (hv : cronValid job.schedule = true) :
    (scheduleJob cronValid job false st).1 =
      ⟨mapSet job.id st.nextHandle st.registry, st.nextHandle :: st.live,
        st.nextHandle + 1⟩ := by
  simp [scheduleJob, hv]

/-- `initStep` on a paused job does nothing. -/
theorem initStep_paused (cronValid : String → Bool) (st : SchedulerState)
    (j : Job) (h : j.status = JobStatus.paused) :
    initStep cronValid st j = st := by
  simp [initStep, h]

/-- `initStep` on an active job with a valid schedule registers it. -/
theorem initStep_active_valid (cronValid : String → Bool)
    (st : SchedulerState) (j : Job) (h : j.status = JobStatus.active)
    (hv : cronValid j.schedule = true) :
    initStep cronValid st j =
      ⟨mapSet j.id st.nextHandle st.registry, st.nextHandle :: st.live,
        st.nextHandle + 1⟩ := by
  rw [initStep, if_neg (by simp [h]), scheduleJob_valid_state cronValid j st hv]

/-- `initStep` on an active job with an invalid schedule does nothing. -/
theorem initStep_active_invalid (cronValid : String → Bool)
    (st : SchedulerState) (j : Job) (h : j.status = JobStatus.active)
    (hv : ¬ cronValid j.schedule = true) :
    initStep cronValid st j = st := by
  rw [initStep, if_neg (by simp [h])]
  simp [scheduleJob, hv]

/-- Key membership after the `initScheduler` fold. -/
theorem mem_keys_initFold (cronValid : String → Bool) (table : List Job)
    (st : SchedulerState) (k : Nat) :
    k ∈ keysOf (table.foldl (initStep cronValid) st).registry ↔
      (k ∈ keysOf st.registry ∨
        ∃ j ∈ table, j.id = k ∧ j.status = JobStatus.active ∧
          cronValid j.schedule = true) := by
  induction table generalizing st with
  | nil => simp
  | cons j table ih =>
      rw [List.foldl_cons, ih]
      by_cases hp : j.status = JobStatus.paused
      · rw [initStep_paused cronValid st j hp]
        simp [hp]
      · have ha := status_eq_active_of_ne_paused j hp
        by_cases hv : cronValid j.schedule = true
        · rw [initStep_active_valid cronValid st j ha hv]
          show k ∈ keysOf (mapSet j.id st.nextHandle st.registry) ∨ _ ↔ _
          rw [mem_keys_mapSet]
          simp [ha, hv]
          constructor
          · rintro ((h | rfl) | h)
            · exact Or.inl h
            · exact Or.inr (Or.inl rfl)
            · exact Or.inr (Or.inr h)
          · rintro (h | rfl | h)
            · exact Or.inl (Or.inl h)
            · exact Or.inl (Or.inr rfl)
            · exact Or.inr h
        · rw [initStep_active_invalid cronValid st j ha hv]
          simp [hv]

/-- The `initScheduler` fold preserves distinctness of the keys. -/
theorem nodup_keys_initFold (cronValid : String → Bool) (table : List Job)
    (st : SchedulerState) (h : (keysOf st.registry).Nodup) :
    (keysOf (table.foldl (initStep cronValid) st).registry).Nodup := by
  induction table generalizing st with
  | nil => exact h
  | cons j table ih =>
      rw [List.foldl_cons]
      apply ih
      by_cases hp : j.status = JobStatus.paused
      · rwa [initStep_paused cronValid st j hp]
      · have ha := status_eq_active_of_ne_paused j hp
        by_cases hv : cronValid j.schedule = true
        · rw [initStep_active_valid cronValid st j ha hv]
          exact nodup_keys_mapSet _ _ _ h
        · rwa [initStep_active_invalid cronValid st j ha hv]

/-- The invariant holds right after `initScheduler`. -/
theorem regInv_init (cronValid : String → Bool) (table : List Job)
    (nid : Nat) (hids : (table.map Job.id).Nodup)
    (hbound : ∀ j ∈ table, j.id < nid) :
    RegInv cronValid ⟨table, initScheduler cronValid table, nid⟩ := by
  have hmem : ∀ k, k ∈ keysOf (initScheduler cronValid table).registry ↔
      ∃ j ∈ table, j.id = k ∧ j.status = JobStatus.active ∧
        cronValid j.schedule = true := by
    intro k
    rw [initScheduler, mem_keys_initFold]
    simp [keysOf]
  refine ⟨?_, ?_, hids, hbound, ?_⟩
  · rw [initScheduler]
    exact nodup_keys_initFold cronValid table _ (by simp [keysOf])
  · intro k hk
    obtain ⟨j, hj, hjk, _, _⟩ := (hmem k).mp hk
    exact ⟨j, hj, hjk⟩
  · intro j hj
    rw [hmem j.id]
    constructor
    · rintro ⟨j', hj', hid, hs, hv⟩
      have he : j' = j := List.inj_on_of_nodup_map hids hj' hj hid
      subst he
      exact ⟨hs, hv⟩
    · intro hsv
      exact ⟨j, hj, rfl, hsv.1, hsv.2⟩

/-- `createJob` preserves the invariant. -/
theorem regInv_create (cronValid : String → Bool) {s : Sys}
    (hInv : RegInv cronValid s) (name command schedule : String) :
    RegInv cronValid (createJob cronValid s name command schedule).1 := by
  obtain ⟨h1, h2, h3, h4, h5⟩ := hInv
  unfold createJob
  split
  · exact ⟨h1, h2, h3, h4, h5⟩
  split
  · exact ⟨h1, h2, h3, h4, h5⟩
  split
  · exact ⟨h1, h2, h3, h4, h5⟩
  split
  case isFalse => exact ⟨h1, h2, h3, h4, h5⟩
  case isTrue hcv =>
  rw [scheduleJob_valid_state cronValid _ s.sched hcv]
  have hfresh : s.nextJobId ∉ keysOf s.sched.registry := by
    intro hk
    obtain ⟨j, hj, hjid⟩ := h2 _ hk
    have := h4 j hj
    omega
  have hnid : s.nextJobId ∉ s.jobs.map Job.id := by
    intro hm
    obtain ⟨j, hj, hjid⟩ := List.mem_map.mp hm
    have := h4 j hj
    omega
  refine ⟨?_, ?_, ?_, ?_, ?_⟩
  · exact nodup_keys_mapSet _ _ _ h1
  · intro k hk
    rw [show keysOf (Sys.mk (s.jobs ++ [_]) _ _).sched.registry =
        keysOf (mapSet s.nextJobId s.sched.nextHandle s.sched.registry)
      from rfl] at hk
    rcases (mem_keys_mapSet k s.nextJobId s.sched.nextHandle
        s.sched.registry).mp hk with hold | rfl
    · obtain ⟨j, hj, hjk⟩ := h2 k hold
      exact ⟨j, List.mem_append_left _ hj, hjk⟩
    · exact ⟨⟨s.nextJobId, name, command, schedule, JobStatus.active⟩,
        List.mem_append_right _ (List.mem_singleton.mpr rfl), rfl⟩
  · show ((s.jobs ++ [_]).map Job.id).Nodup
    rw [List.map_append]
    simp [List.nodup_append, h3, hnid]
  · intro j hj
    rcases List.mem_append.mp hj with hjl | hjr
    · have := h4 j hjl
      show j.id < s.nextJobId + 1
      omega
    · rw [List.mem_singleton.mp hjr]
      show s.nextJobId < s.nextJobId + 1
      omega
  · intro j hj
    rcases List.mem_append.mp hj with hjl | hjr
    · have hne : j.id ≠ s.nextJobId := by
        have := h4 j hjl
        omega
      show j.id ∈ keysOf (mapSet s.nextJobId s.sched.nextHandle
          s.sched.registry) ↔ _
      rw [mem_keys_mapSet, or_iff_left hne]
      exact h5 j hjl
    · rw [List.mem_singleton.mp hjr]
      show s.nextJobId ∈ keysOf (mapSet s.nextJobId s.sched.nextHandle
          s.sched.registry) ↔ _
      rw [mem_keys_mapSet]
      exact iff_of_true (Or.inr rfl) ⟨rfl, hcv⟩

/-- `pauseJob` preserves the invariant. -/
theorem regInv_pause (cronValid : String → Bool) {s : Sys}
    (hInv : RegInv cronValid s) (id : Nat) :
    RegInv cronValid (pauseJob s id).1 := by
  obtain ⟨h1, h2, h3, h4, h5⟩ := hInv
  unfold pauseJob
  cases hf : s.jobs.find? (fun j => j.id = id) with
  | none => exact ⟨h1, h2, h3, h4, h5⟩
  | some j0 =>
      dsimp only
      refine ⟨nodup_keys_cancelJob id s.sched h1, ?_, ?_, ?_, ?_⟩
      · intro k hk
        obtain ⟨hk0, _⟩ := (mem_keys_cancelJob k id s.sched).mp hk
        obtain ⟨j, hj, hjk⟩ := h2 k hk0
        refine ⟨if j.id = id then { j with status := JobStatus.paused }
          else j, List.mem_map_of_mem _ hj, ?_⟩
        by_cases hj' : j.id = id
        · rw [if_pos hj']
          exact hjk
        · rw [if_neg hj']
          exact hjk
      · show ((s.jobs.map _).map Job.id).Nodup
        rw [ids_setStatus]
        exact h3
      · intro j' hj'
        obtain ⟨j, hj, rfl⟩ := List.mem_map.mp hj'
        have hid : (if j.id = id then { j with status := JobStatus.paused }
            else j).id = j.id := by
          by_cases hj2 : j.id = id <;> simp [hj2]
        rw [hid]
        exact h4 j hj
      · intro j' hj'
        obtain ⟨j, hj, rfl⟩ := List.mem_map.mp hj'
        by_cases hjid : j.id = id
        · rw [if_pos hjid]
          apply iff_of_false
          · intro hk
            obtain ⟨_, hne⟩ := (mem_keys_cancelJob _ id s.sched).mp hk
            exact hne hjid
          · rintro ⟨hs, _⟩
            exact JobStatus.noConfusion hs
        · rw [if_neg hjid]
          show j.id ∈ keysOf (cancelJob id s.sched).1.registry ↔ _
          rw [mem_keys_cancelJob, and_iff_left hjid]
          exact h5 j hj

/-- `resumeJob` preserves the invariant. -/
theorem regInv_resume (cronValid : String → Bool) {s : Sys}
    (hInv : RegInv cronValid s) (id : Nat) :
    RegInv cronValid (resumeJob cronValid s id).1 := by
  obtain ⟨h1, h2, h3, h4, h5⟩ := hInv
  unfold resumeJob
  cases hf : s.jobs.find? (fun j => j.id = id) with
  | none => exact ⟨h1, h2, h3, h4, h5⟩
  | some j0 =>
      have hj0 : j0 ∈ s.jobs := List.mem_of_find?_eq_some hf
      have hj0id : j0.id = id := by simpa using List.find?_some hf
      dsimp only
      by_cases hst : j0.status = JobStatus.paused
      case neg =>
        rw [if_neg hst]
        exact ⟨h1, h2, h3, h4, h5⟩
      case pos =>
      rw [if_pos hst]
      have hnotin : j0.id ∉ keysOf s.sched.registry := by
        intro hk
        have := (h5 j0 hj0).mp hk
        rw [hst] at this
        exact JobStatus.noConfusion this.1
      by_cases hv : cronValid j0.schedule = true
      · rw [scheduleJob_valid_state cronValid j0 s.sched hv]
        refine ⟨nodup_keys_mapSet _ _ _ h1, ?_, ?_, ?_, ?_⟩
        · intro k hk
          rcases (mem_keys_mapSet k j0.id s.sched.nextHandle
              s.sched.registry).mp hk with hold | rfl
          · obtain ⟨j, hj, hjk⟩ := h2 k hold
            refine ⟨if j.id = id then { j with status := JobStatus.active }
              else j, List.mem_map_of_mem _ hj, ?_⟩
            by_cases hj' : j.id = id
            · rw [if_pos hj']
              exact hjk
            · rw [if_neg hj']
              exact hjk
          · exact ⟨{ j0 with status := JobStatus.active },
              List.mem_map.mpr ⟨j0, hj0, by simp [hj0id]⟩, rfl⟩
        · show ((s.jobs.map _).map Job.id).Nodup
          rw [ids_setStatus]
          exact h3
        · intro j' hj'
          obtain ⟨j, hj, rfl⟩ := List.mem_map.mp hj'
          have hid : (if j.id = id then { j with status := JobStatus.active }
              else j).id = j.id := by
            by_cases hj2 : j.id = id <;> simp [hj2]
          rw [hid]
          exact h4 j hj
        · intro j' hj'
          obtain ⟨j, hj, rfl⟩ := List.mem_map.mp hj'
          by_cases hjid : j.id = id
          · rw [if_pos hjid]
            apply iff_of_true
            · show j.id ∈ keysOf (mapSet j0.id s.sched.nextHandle
                  s.sched.registry)
              rw [mem_keys_mapSet]
              exact Or.inr (hjid.trans hj0id.symm)
            · exact ⟨rfl, by rwa [show j.schedule = j0.schedule from by
                have he : j = j0 := List.inj_on_of_nodup_map h3 hj hj0
                  (hjid.trans hj0id.symm)
                rw [he]]⟩
          · rw [if_neg hjid]
            show j.id ∈ keysOf (mapSet j0.id s.sched.nextHandle
                s.sched.registry) ↔ _
            rw [mem_keys_mapSet, or_iff_left (by omega : ¬ j.id = j0.id)]
            exact h5 j hj
      · have hsame : (scheduleJob cronValid j0 false s.sched).1 = s.sched := by
          simp [scheduleJob, hv]
        rw [hsame]
        refine ⟨h1, ?_, ?_, ?_, ?_⟩
        · intro k hk
          obtain ⟨j, hj, hjk⟩ := h2 k hk
          refine ⟨if j.id = id then { j with status := JobStatus.active }
            else j, List.mem_map_of_mem _ hj, ?_⟩
          by_cases hj' : j.id = id
          · rw [if_pos hj']
            exact hjk
          · rw [if_neg hj']
            exact hjk
        · show ((s.jobs.map _).map Job.id).Nodup
          rw [ids_setStatus]
          exact h3
        · intro j' hj'
          obtain ⟨j, hj, rfl⟩ := List.mem_map.mp hj'
          have hid : (if j.id = id then { j with status := JobStatus.active }
              else j).id = j.id := by
            by_cases hj2 : j.id = id <;> simp [hj2]
          rw [hid]
          exact h4 j hj
        · intro j' hj'
          obtain ⟨j, hj, rfl⟩ := List.mem_map.mp hj'
          by_cases hjid : j.id = id
          · rw [if_pos hjid]
            apply iff_of_false
            · show ¬ j.id ∈ keysOf s.sched.registry
              have he : j = j0 := List.inj_on_of_nodup_map h3 hj hj0
                (hjid.trans hj0id.symm)
              rw [he]
              exact hnotin
            · rintro ⟨_, hvv⟩
              have he : j = j0 := List.inj_on_of_nodup_map h3 hj hj0
                (hjid.trans hj0id.symm)
              rw [he] at hvv
              exact hv hvv
          · rw [if_neg hjid]
            exact h5 j hj

/-- `deleteJob` preserves the invariant. -/
theorem regInv_delete (cronValid : String → Bool) {s : Sys}
    (hInv : RegInv cronValid s) (id : Nat) :
    RegInv cronValid (deleteJob s id).1 := by
  obtain ⟨h1, h2, h3, h4, h5⟩ := hInv
  refine ⟨nodup_keys_cancelJob id s.sched h1, ?_, ?_, ?_, ?_⟩
  · intro k hk
    obtain ⟨hk0, hkne⟩ := (mem_keys_cancelJob k id s.sched).mp hk
    obtain ⟨j, hj, hjk⟩ := h2 k hk0
    refine ⟨j, List.mem_filter.mpr ⟨hj, ?_⟩, hjk⟩
    simp
    omega
  · show ((s.jobs.filter _).map Job.id).Nodup
    exact h3.sublist ((List.filter_sublist s.jobs).map Job.id)
  · intro j hj
    exact h4 j (List.mem_filter.mp hj).1
  · intro j hj
    obtain ⟨hjl, hjne⟩ := List.mem_filter.mp hj
    have hne : j.id ≠ id := by simpa using hjne
    show j.id ∈ keysOf (cancelJob id s.sched).1.registry ↔ _
    rw [mem_keys_cancelJob, and_iff_left hne]
    exact h5 j hjl

/-- The invariant holds in every reachable state. -/
theorem regInv_of_reachable (cronValid : String → Bool) {s : Sys}
    (h : Reachable cronValid s) : RegInv cronValid s := by
  induction h with
  | init table nid hids hbound => exact regInv_init cronValid table nid hids hbound
  | create _ name command schedule ih =>
      exact regInv_create cronValid ih name command schedule
  | pause _ id ih => exact regInv_pause cronValid ih id
  | resume _ id ih => exact regInv_resume cronValid ih id
  | del _ id ih => exact regInv_delete cronValid ih id
  | runNow _ job ih => exact ih

/-- C4: in every state reachable through the public operations, each
job has at most one entry in the task registry, and it has an entry
exactly when its status is active and its cron schedule is valid. -/
theorem registry_invariant (cronValid : String → Bool) (s : Sys)
    (h : Reachable cronValid s) :
    ∀ j ∈ s.jobs,
      (keysOf s.sched.registry).count j.id ≤ 1 ∧
        (hasKey j.id s.sched.registry = true ↔
          (j.status = JobStatus.active ∧ cronValid j.schedule = true)) := by
  obtain ⟨h1, _, _, _, h5⟩ := regInv_of_reachable cronValid h
  intro j hj
  refine ⟨List.nodup_iff_count_le_one.mp h1 j.id, ?_⟩
  rw [hasKey_eq_mem]
  exact h5 j hj

/-- Witness for `registry_invariant` at a concrete reachable state:
one active job scheduled at startup. -/
theorem registry_invariant_witness :
    (keysOf (initScheduler cvStd [jobW]).registry).count 1 ≤ 1 ∧
      (hasKey 1 (initScheduler cvStd [jobW]).registry = true ↔
        (JobStatus.active = JobStatus.active ∧ cvStd "* * * * *" = true)) := by
  have h := registry_invariant cvStd ⟨[jobW], initScheduler cvStd [jobW], 2⟩
    (Reachable.init [jobW] 2 (by decide) (by decide)) jobW (by decide)
  exact h

end CronoSphere
